import Mathlib

/-!
Verification of the Black-Scholes repository: a shallow embedding, over ℝ, of
the closed-form pricer, the Greeks, the hybrid implied-volatility solver and
the Monte Carlo engine, together with theorems settling the specification
claims.  The three relevant source modules are embedded in three namespaces:
`BS` for black_scholes.py, `BSC` for BlackScholesCalculator.py and `MC` for
mc_black_scholes.py.
-/

open MeasureTheory

/-! ## The standard normal distribution (scipy.stats.norm.pdf / norm.cdf) -/

/-- Standard normal density, `st.norm.pdf`: exp(-x²/2)/√(2π). -/
noncomputable def normPdf (x : ℝ) : ℝ :=
  Real.exp (-x ^ 2 / 2) / Real.sqrt (2 * Real.pi)

/-- Standard normal cumulative distribution function, `st.norm.cdf`. -/
noncomputable def normCdf (x : ℝ) : ℝ :=
  ∫ t in Set.Iic x, normPdf t

lemma normPdf_pos (x : ℝ) : 0 < normPdf x := by
  apply div_pos (Real.exp_pos _)
  apply Real.sqrt_pos.mpr
  positivity

lemma normPdf_even (x : ℝ) : normPdf (-x) = normPdf x := by
  simp [normPdf]

lemma normPdf_eq_gauss :
    normPdf = fun x : ℝ => Real.exp (-(1/2 : ℝ) * x ^ 2) * (Real.sqrt (2 * Real.pi))⁻¹ := by
  funext x
  have h : -x ^ 2 / 2 = -(1/2 : ℝ) * x ^ 2 := by ring
  rw [normPdf, h, div_eq_mul_inv]

lemma integrable_normPdf : Integrable normPdf := by
  rw [normPdf_eq_gauss]
  exact (integrable_exp_neg_mul_sq (by norm_num : (0:ℝ) < 1/2)).mul_const _

lemma integral_normPdf : ∫ x, normPdf x = 1 := by
  rw [normPdf_eq_gauss]
  rw [integral_mul_right, integral_gaussian]
  rw [show Real.pi / (1/2 : ℝ) = 2 * Real.pi by ring]
  have h : Real.sqrt (2 * Real.pi) ≠ 0 := by
    apply ne_of_gt
    apply Real.sqrt_pos.mpr
    positivity
  field_simp

/-- Reflection symmetry of the normal CDF: Φ(x) + Φ(-x) = 1. -/
lemma normCdf_add_neg (x : ℝ) : normCdf x + normCdf (-x) = 1 := by
  have h1 : normCdf (-x) = ∫ t in Set.Ioi x, normPdf t := by
    rw [normCdf]
    have := integral_comp_neg_Iic (-x) normPdf
    rw [neg_neg] at this
    rw [← this]
    congr 1
    funext t
    exact (normPdf_even t).symm
  rw [h1, normCdf]
  rw [intervalIntegral.integral_Iic_add_Ioi integrable_normPdf.integrableOn
    integrable_normPdf.integrableOn]
  exact integral_normPdf

lemma normCdf_strictMono : StrictMono normCdf := by
  intro a b hab
  have hsub : normCdf b - normCdf a = ∫ t in a..b, normPdf t :=
    intervalIntegral.integral_Iic_sub_Iic integrable_normPdf.integrableOn
      integrable_normPdf.integrableOn
  have hpos : 0 < ∫ t in a..b, normPdf t :=
    intervalIntegral.intervalIntegral_pos_of_pos integrable_normPdf.intervalIntegrable
      normPdf_pos hab
  linarith

lemma normCdf_zero : normCdf 0 = 1/2 := by
  have h := normCdf_add_neg 0
  rw [neg_zero] at h
  linarith

/-! ## black_scholes.py -/

inductive OptionType
  | call
  | put
deriving DecidableEq

namespace BS

/-- d1 auxiliary quantity of `bs_price` (black_scholes.py, line 40). -/
noncomputable def d1 (S K T r σ : ℝ) : ℝ :=
  (Real.log (S / K) + (r + 0.5 * σ * σ) * T) / (σ * Real.sqrt T)

/-- d2 auxiliary quantity of `bs_price` (black_scholes.py, line 41). -/
noncomputable def d2 (S K T r σ : ℝ) : ℝ :=
  d1 S K T r σ - σ * Real.sqrt T

/-- `bs_price` from black_scholes.py: intrinsic value at `T ≤ 0`, otherwise the
closed-form Black-Scholes value. -/
noncomputable def bs_price (S K T r σ : ℝ) (ty : OptionType) : ℝ :=
  if T ≤ 0 then
    match ty with
    | .call => max (S - K) 0
    | .put => max (K - S) 0
  else
    match ty with
    | .call => S * normCdf (d1 S K T r σ) - K * Real.exp (-r * T) * normCdf (d2 S K T r σ)
    | .put => K * Real.exp (-r * T) * normCdf (-d2 S K T r σ) - S * normCdf (-d1 S K T r σ)

structure Greeks where
  delta : ℝ
  gamma : ℝ
  vega : ℝ
  theta : ℝ
  rho : ℝ

/-- `bs_greeks` from black_scholes.py.  At `T ≤ 0` the delta is the step
function written in the source (`1.0 if S > K else 0.0` for a call,
`0.0 if S > K else -1.0` for a put) and the other Greeks are zero. -/
noncomputable def bs_greeks (S K T r σ : ℝ) (ty : OptionType) : Greeks :=
  if T ≤ 0 then
    { delta := match ty with
        | .call => if S > K then 1 else 0
        | .put => if S > K then 0 else -1
      gamma := 0, vega := 0, theta := 0, rho := 0 }
  else
    { delta := match ty with
        | .call => normCdf (d1 S K T r σ)
        | .put => normCdf (d1 S K T r σ) - 1
      gamma := normPdf (d1 S K T r σ) / (S * σ * Real.sqrt T)
      vega := S * normPdf (d1 S K T r σ) * Real.sqrt T
      theta := match ty with
        | .call => -S * normPdf (d1 S K T r σ) * σ / (2 * Real.sqrt T)
            - r * K * Real.exp (-r * T) * normCdf (d2 S K T r σ)
        | .put => -S * normPdf (d1 S K T r σ) * σ / (2 * Real.sqrt T)
            + r * K * Real.exp (-r * T) * normCdf (-d2 S K T r σ)
      rho := K * T * Real.exp (-r * T) *
        (match ty with
         | .call => normCdf (d2 S K T r σ)
         | .put => -normCdf (-d2 S K T r σ)) }

/-- Outcome of the Newton loop of `implied_vol_newton`: either the loop hit the
tolerance and returned `max σ 0`, or it broke / exhausted its iterations and
falls through to bisection carrying the current σ. -/
inductive NewtonOut
  | conv (v : ℝ)
  | fall (σ : ℝ)

/-- The `for i in range(max_iter)` Newton loop of `implied_vol_newton`
(black_scholes.py, lines 94-108), fuel-indexed.  Each body evaluates the
price and the vega at the current σ, returns `max σ 0` on convergence, breaks
when `vega < 1e-12`, and after the update `σ - diff/vega` breaks when the new
σ leaves `(0, 5]`. -/
noncomputable def newtonPhase (S K T r target tol : ℝ) (ty : OptionType) :
    ℕ → ℝ → NewtonOut
  | 0, σ => .fall σ
  | n + 1, σ =>
    let diff := bs_price S K T r σ ty - target
    if |diff| < tol then .conv (max σ 0)
    else if (bs_greeks S K T r σ ty).vega < 1e-12 then .fall σ
    else
      let σn := σ - diff / (bs_greeks S K T r σ ty).vega
      if σn ≤ 0 ∨ 5 < σn then .fall σn
      else newtonPhase S K T r target tol ty n σn

/-- The `for i in range(200)` bisection loop of `implied_vol_newton`
(black_scholes.py, lines 118-129), fuel-indexed on the remaining iterations;
the last mid-point is returned when the residual never beats the tolerance. -/
noncomputable def bisectLoop (S K T r target tol : ℝ) (ty : OptionType) :
    ℕ → ℝ → ℝ → ℝ → ℝ
  | 0, low, high, _ => 0.5 * (low + high)
  | fuel + 1, low, high, pl =>
    let mid := 0.5 * (low + high)
    let pm := bs_price S K T r mid ty - target
    if |pm| < tol then mid
    else if fuel = 0 then mid
    else if pl * pm ≤ 0 then bisectLoop S K T r target tol ty fuel low mid pl
    else bisectLoop S K T r target tol ty fuel mid high pm

/-- The bisection fallback of `implied_vol_newton` (black_scholes.py, lines
110-129): bracket check on `[1e-6, 5]`, clipping the current σ into the
interval when the bracket fails, otherwise 200 bisection iterations. -/
noncomputable def bisectionPhase (S K T r target tol : ℝ) (ty : OptionType) (σ : ℝ) : ℝ :=
  let low : ℝ := 1e-6
  let high : ℝ := 5
  let pl := bs_price S K T r low ty - target
  let ph := bs_price S K T r high ty - target
  if pl * ph > 0 then max (min σ high) low
  else bisectLoop S K T r target tol ty 200 low high pl

/-- `implied_vol_newton` from black_scholes.py: non-positive prices return 0
immediately, then the Newton phase, then the bisection fallback. -/
noncomputable def implied_vol_newton (price S K T r : ℝ) (ty : OptionType)
    (initial_sigma tol : ℝ) (max_iter : ℕ) : ℝ :=
  if price ≤ 0 then 0
  else
    match newtonPhase S K T r price tol ty max_iter initial_sigma with
    | .conv v => v
    | .fall σ => bisectionPhase S K T r price tol ty σ

/-- Instrumentation of `newtonPhase`: the number of Newton loop bodies that
execute (each body evaluates `bs_price` and the vega).  It mirrors
`newtonPhase` branch for branch. -/
noncomputable def newtonIters (S K T r target tol : ℝ) (ty : OptionType) :
    ℕ → ℝ → ℕ
  | 0, _ => 0
  | n + 1, σ =>
    let diff := bs_price S K T r σ ty - target
    if |diff| < tol then 1
    else if (bs_greeks S K T r σ ty).vega < 1e-12 then 1
    else
      let σn := σ - diff / (bs_greeks S K T r σ ty).vega
      if σn ≤ 0 ∨ 5 < σn then 1
      else 1 + newtonIters S K T r target tol ty n σn

/-- Number of Newton loop bodies executed by a call to `implied_vol_newton`. -/
noncomputable def implied_vol_newton_iters (price S K T r : ℝ) (ty : OptionType)
    (initial_sigma tol : ℝ) (max_iter : ℕ) : ℕ :=
  if price ≤ 0 then 0
  else newtonIters S K T r price tol ty max_iter initial_sigma

end BS

/-! ## BlackScholesCalculator.py -/

namespace BSC

/-- `BlackScholesCalculator._d1_d2`: `none` models the `np.nan, np.nan` return
for `T ≤ 0` (the pricing methods never reach it, they all guard `T ≤ 0`
first); for `T > 0` a non-positive σ is clamped to the floor `1e-6` before
d1 and d2 are computed. -/
noncomputable def d1d2 (S K T r σ : ℝ) : Option (ℝ × ℝ) :=
  if T ≤ 0 then none
  else
    let σc := if σ ≤ 0 then 1e-6 else σ
    let a := (Real.log (S / K) + (r + 0.5 * σc ^ 2) * T) / (σc * Real.sqrt T)
    some (a, a - σc * Real.sqrt T)

/-- `BlackScholesCalculator.call_option_price`.  The `none` branch of `d1d2`
is unreachable because of the `T ≤ 0` guard. -/
noncomputable def call_option_price (S K T r σ : ℝ) : ℝ :=
  if T ≤ 0 then max 0 (S - K)
  else
    match d1d2 S K T r σ with
    | some (a, b) => S * normCdf a - K * Real.exp (-r * T) * normCdf b
    | none => 0

/-- `BlackScholesCalculator.put_option_price`. -/
noncomputable def put_option_price (S K T r σ : ℝ) : ℝ :=
  if T ≤ 0 then max 0 (K - S)
  else
    match d1d2 S K T r σ with
    | some (a, b) => K * Real.exp (-r * T) * normCdf (-b) - S * normCdf (-a)
    | none => 0

/-- `BlackScholesCalculator.delta`: at `T ≤ 0` the source returns
`1.0 if S > K else 0.0` for a call and `-1.0 if S < K else 0.0` for a put. -/
noncomputable def delta (S K T r σ : ℝ) (ty : OptionType) : ℝ :=
  if T ≤ 0 then
    match ty with
    | .call => if S > K then 1 else 0
    | .put => if S < K then -1 else 0
  else
    match d1d2 S K T r σ with
    | some (a, _) =>
      match ty with
      | .call => normCdf a
      | .put => normCdf a - 1
    | none => 0

/-- `BlackScholesCalculator.vega`: zero at `T ≤ 0`, otherwise
`(S * sqrt(T) * norm.pdf(d1)) / 100`, i.e. per 1% change in volatility. -/
noncomputable def vega (S K T r σ : ℝ) : ℝ :=
  if T ≤ 0 then 0
  else
    match d1d2 S K T r σ with
    | some (a, _) => S * Real.sqrt T * normPdf a / 100
    | none => 0

/-- The `if option_type == 'call'` price dispatch used by the loop body of
`implied_volatility_newton_raphson` (BlackScholesCalculator.py, lines
112-115). -/
noncomputable def priceOf (S K T r σ : ℝ) : OptionType → ℝ
  | .call => call_option_price S K T r σ
  | .put => put_option_price S K T r σ

/-- The Newton loop of `implied_volatility_newton_raphson`
(BlackScholesCalculator.py, lines 111-144), fuel-indexed.  A sub-threshold
vega produces a ±0.01 nudge (floored at 0.001) and the loop continues; a
Newton update below 0 is replaced by 0.001 and one above 5.0 is capped at
5.0, and the loop continues from the adjusted σ.  When the fuel runs out the
last estimate is returned. -/
noncomputable def nrLoop (S K T r market tol : ℝ) (ty : OptionType) : ℕ → ℝ → ℝ
  | 0, σ => σ
  | n + 1, σ =>
    let diff := priceOf S K T r σ ty - market
    if |diff| < tol then σ
    else
      let v := vega S K T r σ * 100
      if |v| < 1e-10 then
        let σ1 := if diff > 0 then σ + 0.01 else σ - 0.01
        let σ2 := if σ1 ≤ 0 then 0.001 else σ1
        nrLoop S K T r market tol ty n σ2
      else
        let σn := σ - diff / v
        let σn2 := if σn ≤ 0 then 0.001 else if 5 < σn then 5 else σn
        nrLoop S K T r market tol ty n σn2

/-- `implied_volatility_newton_raphson` from BlackScholesCalculator.py. -/
noncomputable def implied_volatility_newton_raphson (market S K T r : ℝ)
    (ty : OptionType) (initial_sigma tol : ℝ) (max_iterations : ℕ) : ℝ :=
  nrLoop S K T r market tol ty max_iterations initial_sigma

end BSC

/-! ## mc_black_scholes.py -/

namespace MC

/-- The batch of underlying standard-normal draws of `simulate_terminal_stock`
(mc_black_scholes.py, lines 30-37).  `rng i` is the i-th value produced by
the random-number stream.  With `antithetic` the first `n / 2` draws are
paired with their negations, and one unmatched extra draw is appended when
`n` is odd. -/
def draws (rng : ℕ → ℝ) (n : ℕ) (antithetic : Bool) : List ℝ :=
  if antithetic then
    let half := n / 2
    let z := (List.range half).map rng
    let zAll := z ++ z.map (fun x => -x)
    if n % 2 = 1 then zAll ++ [rng half] else zAll
  else (List.range n).map rng

/-- `simulate_terminal_stock`: exact GBM transform of the draws. -/
noncomputable def simulate_terminal_stock (S0 r σ T : ℝ) (n : ℕ)
    (antithetic : Bool) (rng : ℕ → ℝ) : List ℝ :=
  (draws rng n antithetic).map
    (fun z => S0 * Real.exp ((r - 0.5 * σ * σ) * T + σ * Real.sqrt T * z))

/-- Sample mean, `np.ndarray.mean`. -/
noncomputable def mean (l : List ℝ) : ℝ := l.sum / l.length

/-- Sample variance with the unbiased `n-1` divisor, `np.var(·, ddof=1)`
(also the diagonal of `np.cov(·, ·, ddof=1)`). -/
noncomputable def sampleVar (l : List ℝ) : ℝ :=
  ((l.map (fun x => (x - mean l) ^ 2)).sum) / (l.length - 1)

/-- Sample covariance with the `n-1` divisor, the off-diagonal entry of
`np.cov(Y, X, ddof=1)`. -/
noncomputable def sampleCov (ys xs : List ℝ) : ℝ :=
  (List.zipWith (fun y x => (y - mean ys) * (x - mean xs)) ys xs).sum /
    (ys.length - 1)

structure MCResult where
  cv_mean : ℝ
  cv_var : ℝ
  naive_mean : ℝ
  naive_var : ℝ
  b_opt : ℝ

/-- The discounted payoffs `Y = e^(-rT)·max(S_T - K, 0)` of
`mc_control_variate_call` (mc_black_scholes.py, line 64). -/
noncomputable def payoffY (S0 K r σ T : ℝ) (n : ℕ) (antithetic : Bool)
    (rng : ℕ → ℝ) : List ℝ :=
  (simulate_terminal_stock S0 r σ T n antithetic rng).map
    (fun s => Real.exp (-r * T) * max (s - K) 0)

/-- The control variate `X = e^(-rT)·S_T` of `mc_control_variate_call`
(mc_black_scholes.py, line 65). -/
noncomputable def controlX (S0 r σ T : ℝ) (n : ℕ) (antithetic : Bool)
    (rng : ℕ → ℝ) : List ℝ :=
  (simulate_terminal_stock S0 r σ T n antithetic rng).map
    (fun s => Real.exp (-r * T) * s)

/-- `mc_control_variate_call` from mc_black_scholes.py: discounted payoffs
`Y`, control `X = e^(-rT)·S_T`, optimal coefficient
`b* = Cov(Y,X)/Var(X)` guarded by `var_x > 0`, adjusted samples
`Y - b*·(X - S0)`. -/
noncomputable def mc_control_variate_call (S0 K r σ T : ℝ) (n : ℕ)
    (antithetic : Bool) (rng : ℕ → ℝ) : MCResult :=
  let Y := payoffY S0 K r σ T n antithetic rng
  let X := controlX S0 r σ T n antithetic rng
  let cov_yx := sampleCov Y X
  let var_x := sampleVar X
  let b := if var_x > 0 then cov_yx / var_x else 0
  let Ycv := List.zipWith (fun y x => y - b * (x - S0)) Y X
  { cv_mean := mean Ycv, cv_var := sampleVar Ycv,
    naive_mean := mean Y, naive_var := sampleVar Y, b_opt := b }

end MC

/-! ## Helper lemmas -/

lemma BSC.d1d2_isSome {S K T r σ : ℝ} (hT : 0 < T) :
    ∃ p : ℝ × ℝ, BSC.d1d2 S K T r σ = some p := by
  rw [BSC.d1d2, if_neg (not_le.mpr hT)]
  exact ⟨_, rfl⟩

/-! ## Claim theorems -/

/-- Claim C1: for every S > 0, K > 0, T > 0, r ≥ 0 and σ > 0, the call price
minus the put price returned by the closed-form pricer (in both source files)
equals S − K·e^(−rT) to within 1e-6 (in fact exactly). -/
theorem put_call_parity (S K T r σ : ℝ) (hS : 0 < S) (hK : 0 < K) (hT : 0 < T)
    (hr : 0 ≤ r) (hσ : 0 < σ) :
    |BS.bs_price S K T r σ .call - BS.bs_price S K T r σ .put -
      (S - K * Real.exp (-r * T))| ≤ 1e-6 ∧
    |BSC.call_option_price S K T r σ - BSC.put_option_price S K T r σ -
      (S - K * Real.exp (-r * T))| ≤ 1e-6 := by
  have hT' : ¬ T ≤ 0 := not_le.mpr hT
  constructor
  · have h1 := normCdf_add_neg (BS.d1 S K T r σ)
    have h2 := normCdf_add_neg (BS.d2 S K T r σ)
    have hz : BS.bs_price S K T r σ .call - BS.bs_price S K T r σ .put -
        (S - K * Real.exp (-r * T)) = 0 := by
      simp only [BS.bs_price, if_neg hT']
      linear_combination S * h1 - K * Real.exp (-r * T) * h2
    rw [hz]
    norm_num
  · obtain ⟨⟨a, b⟩, hd⟩ := BSC.d1d2_isSome (S := S) (K := K) (r := r) (σ := σ) hT
    have h1 := normCdf_add_neg a
    have h2 := normCdf_add_neg b
    have hz : BSC.call_option_price S K T r σ - BSC.put_option_price S K T r σ -
        (S - K * Real.exp (-r * T)) = 0 := by
      simp only [BSC.call_option_price, BSC.put_option_price, if_neg hT', hd]
      linear_combination S * h1 - K * Real.exp (-r * T) * h2
    rw [hz]
    norm_num

theorem put_call_parity_witness :
    |BS.bs_price 1 1 1 0 1 .call - BS.bs_price 1 1 1 0 1 .put -
      (1 - 1 * Real.exp (-0 * 1))| ≤ 1e-6 ∧
    |BSC.call_option_price 1 1 1 0 1 - BSC.put_option_price 1 1 1 0 1 -
      (1 - 1 * Real.exp (-0 * 1))| ≤ 1e-6 :=
  put_call_parity 1 1 1 0 1 (by norm_num) (by norm_num) (by norm_num)
    (by norm_num) (by norm_num)

/-- Claim C2: for every σ (including 0 and negative values), a price call with
T ≤ 0 returns exactly the intrinsic value — max(S − K, 0) for a call and
max(K − S, 0) for a put — in both source files; since this holds for every σ,
the result involves no volatility-dependent computation. -/
theorem intrinsic_at_expiry (S K T r σ : ℝ) (hT : T ≤ 0) :
    BS.bs_price S K T r σ .call = max (S - K) 0 ∧
    BS.bs_price S K T r σ .put = max (K - S) 0 ∧
    BSC.call_option_price S K T r σ = max 0 (S - K) ∧
    BSC.put_option_price S K T r σ = max 0 (K - S) := by
  refine ⟨?_, ?_, ?_, ?_⟩ <;>
    simp [BS.bs_price, BSC.call_option_price, BSC.put_option_price, if_pos hT]

theorem intrinsic_at_expiry_witness :
    BS.bs_price 2 1 0 0 (-3) .call = max (2 - 1) 0 ∧
    BS.bs_price 2 1 0 0 (-3) .put = max (1 - 2) 0 ∧
    BSC.call_option_price 2 1 0 0 (-3) = max 0 (2 - 1) ∧
    BSC.put_option_price 2 1 0 0 (-3) = max 0 (1 - 2) :=
  intrinsic_at_expiry 2 1 0 0 (-3) (by norm_num)

/-- Claim C5 counterexample: `bs_price` (black_scholes.py) does not clamp a
non-positive σ to the 1e-6 floor — at S = K = T = 1, r = 0 the price at
σ = −1 differs from the price at the floor σ = 1e-6 (the former is the
negative value Φ(−1/2) − Φ(1/2), the latter the positive value
Φ(5e-7) − Φ(−5e-7)). -/
theorem sigma_clamp_counterexample :
    BS.bs_price 1 1 1 0 (-1) .call ≠ BS.bs_price 1 1 1 0 1e-6 .call := by
  have e1 : BS.d1 1 1 1 0 (-1) = -(1/2) := by
    rw [BS.d1]
    norm_num [Real.log_one, Real.sqrt_one]
  have e2 : BS.d2 1 1 1 0 (-1) = 1/2 := by
    rw [BS.d2, e1]
    norm_num [Real.sqrt_one]
  have e3 : BS.d1 1 1 1 0 1e-6 = 5e-7 := by
    rw [BS.d1]
    norm_num [Real.log_one, Real.sqrt_one]
  have e4 : BS.d2 1 1 1 0 1e-6 = -(5e-7) := by
    rw [BS.d2, e3]
    norm_num [Real.sqrt_one]
  have h1 : normCdf (-(1/2)) < normCdf (1/2) := normCdf_strictMono (by norm_num)
  have h2 : normCdf (-(5e-7)) < normCdf (5e-7) := normCdf_strictMono (by norm_num)
  simp only [BS.bs_price, if_neg (show ¬ (1:ℝ) ≤ 0 by norm_num), e1, e2, e3, e4]
  norm_num [Real.exp_zero]
  intro h
  linarith

/-- Claim C5 amended: only BlackScholesCalculator clamps σ ≤ 0 to the 1e-6
floor (inside `_d1_d2`), so for T > 0 its prices at any σ ≤ 0 equal its
prices at σ = 1e-6; `bs_price` in black_scholes.py applies no clamp and uses
σ unchanged in d1 and d2. -/
theorem sigma_clamp (S K T r σ : ℝ) (hT : 0 < T) (hσ : σ ≤ 0) :
    BSC.call_option_price S K T r σ = BSC.call_option_price S K T r 1e-6 ∧
    BSC.put_option_price S K T r σ = BSC.put_option_price S K T r 1e-6 := by
  have hd : BSC.d1d2 S K T r σ = BSC.d1d2 S K T r 1e-6 := by
    rw [BSC.d1d2, BSC.d1d2]
    norm_num [if_pos hσ]
  constructor
  · rw [BSC.call_option_price, BSC.call_option_price, hd]
  · rw [BSC.put_option_price, BSC.put_option_price, hd]

theorem sigma_clamp_witness :
    BSC.call_option_price 1 1 1 0 (-1) = BSC.call_option_price 1 1 1 0 1e-6 ∧
    BSC.put_option_price 1 1 1 0 (-1) = BSC.put_option_price 1 1 1 0 1e-6 :=
  sigma_clamp 1 1 1 0 (-1) (by norm_num) (by norm_num)

/-- Claim C6 counterexample: at the boundary S = K with T ≤ 0, the put delta
of `bs_greeks` (black_scholes.py) is −1, not 0 — the source condition is
`0.0 if S > K else -1.0`. -/
theorem delta_boundary_counterexample :
    (BS.bs_greeks 1 1 0 0 1 .put).delta ≠ 0 := by
  norm_num [BS.bs_greeks]

/-- Claim C6 amended: at T ≤ 0 delta is a step function, and the call delta
is 1 if S > K else 0 in both implementations (0 at S = K); the put delta is
−1 if S < K else 0 in BlackScholesCalculator but 0 if S > K else −1 in
`bs_greeks`, so at S = K the put delta is 0 in the former and −1 in the
latter. -/
theorem delta_at_expiry (S K T r σ : ℝ) (hT : T ≤ 0) :
    (BS.bs_greeks S K T r σ .call).delta = (if S > K then 1 else 0) ∧
    BSC.delta S K T r σ .call = (if S > K then 1 else 0) ∧
    (BS.bs_greeks S K T r σ .put).delta = (if S > K then 0 else -1) ∧
    BSC.delta S K T r σ .put = (if S < K then -1 else 0) ∧
    (S = K → (BS.bs_greeks S K T r σ .put).delta = -1 ∧
      BSC.delta S K T r σ .put = 0) := by
  refine ⟨?_, ?_, ?_, ?_, ?_⟩
  · simp [BS.bs_greeks, if_pos hT]
  · simp [BSC.delta, if_pos hT]
  · simp [BS.bs_greeks, if_pos hT]
  · simp [BSC.delta, if_pos hT]
  · intro hSK
    subst hSK
    constructor
    · simp [BS.bs_greeks, if_pos hT, lt_irrefl]
    · simp [BSC.delta, if_pos hT, lt_irrefl]

theorem delta_at_expiry_witness :
    (BS.bs_greeks 1 1 0 0 1 .call).delta = (if (1:ℝ) > 1 then 1 else 0) ∧
    BSC.delta 1 1 0 0 1 .call = (if (1:ℝ) > 1 then 1 else 0) ∧
    (BS.bs_greeks 1 1 0 0 1 .put).delta = (if (1:ℝ) > 1 then 0 else -1) ∧
    BSC.delta 1 1 0 0 1 .put = (if (1:ℝ) < 1 then -1 else 0) ∧
    ((1:ℝ) = 1 → (BS.bs_greeks 1 1 0 0 1 .put).delta = -1 ∧
      BSC.delta 1 1 0 0 1 .put = 0) :=
  delta_at_expiry 1 1 0 0 1 (by norm_num)

/-- Claim C7 counterexample: `BlackScholesCalculator.vega` does not return the
per-unit derivative S·φ(d1)·√T — at S = K = T = σ = 1, r = 0 it returns
φ(1/2)/100, which differs from S·φ(d1)·√T = φ(1/2). -/
theorem vega_scaling_counterexample :
    BSC.vega 1 1 1 0 1 ≠ 1 * normPdf (BS.d1 1 1 1 0 1) * Real.sqrt 1 := by
  have e1 : BS.d1 1 1 1 0 1 = 1/2 := by
    rw [BS.d1]
    norm_num [Real.log_one, Real.sqrt_one]
  have hp := normPdf_pos (1/2 : ℝ)
  simp only [BSC.vega, BSC.d1d2, e1]
  norm_num [Real.log_one, Real.sqrt_one]
  intro h
  linarith

/-- Claim C7 amended: for T > 0 (and σ > 0), `bs_greeks` returns the per-unit
vega S·φ(d1)·√T, while `BlackScholesCalculator.vega` returns the per-1%
value S·√T·φ(d1)/100; both return 0 at T ≤ 0. -/
theorem vega_formulas (S K T r σ : ℝ) (ty : OptionType) :
    (0 < T → 0 < σ →
      (BS.bs_greeks S K T r σ ty).vega = S * normPdf (BS.d1 S K T r σ) * Real.sqrt T ∧
      BSC.vega S K T r σ = S * Real.sqrt T * normPdf (BS.d1 S K T r σ) / 100) ∧
    (T ≤ 0 → (BS.bs_greeks S K T r σ ty).vega = 0 ∧ BSC.vega S K T r σ = 0) := by
  constructor
  · intro hT hσ
    have hT' : ¬ T ≤ 0 := not_le.mpr hT
    constructor
    · cases ty <;> simp [BS.bs_greeks, if_neg hT']
    · have ha : (Real.log (S / K) + (r + 0.5 * σ ^ 2) * T) / (σ * Real.sqrt T) =
          BS.d1 S K T r σ := by
        rw [BS.d1]
        ring_nf
      simp only [BSC.vega, BSC.d1d2, if_neg hT', if_neg (not_le.mpr hσ), ha]
  · intro hT
    constructor
    · cases ty <;> simp [BS.bs_greeks, if_pos hT]
    · simp [BSC.vega, if_pos hT]

theorem vega_formulas_witness :
    (0 < (1:ℝ) → 0 < (1:ℝ) →
      (BS.bs_greeks 1 1 1 0 1 .call).vega = 1 * normPdf (BS.d1 1 1 1 0 1) * Real.sqrt 1 ∧
      BSC.vega 1 1 1 0 1 = 1 * Real.sqrt 1 * normPdf (BS.d1 1 1 1 0 1) / 100) ∧
    ((1:ℝ) ≤ 0 → (BS.bs_greeks 1 1 1 0 1 .call).vega = 0 ∧ BSC.vega 1 1 1 0 1 = 0) :=
  vega_formulas 1 1 1 0 1 .call

/-- One step of the BSC Newton loop in the counterexample regime: S = K = 1,
T = 0, r = 0, market 5, tolerance −1.  The loop body sees price 0, a diff of
−5 that never beats the (negative) tolerance, a vega of exactly 0 (below the
1e-10 threshold), nudges σ down by 0.01 and keeps iterating. -/
lemma nrLoop_nudge_step (n : ℕ) (σ : ℝ) (hσ : 0.01 < σ) :
    BSC.nrLoop 1 1 0 0 5 (-1) .call (n + 1) σ =
      BSC.nrLoop 1 1 0 0 5 (-1) .call n (σ - 0.01) := by
  simp only [BSC.nrLoop, BSC.priceOf, BSC.call_option_price, BSC.vega]
  norm_num
  rw [if_neg (show ¬ σ ≤ 1/100 by linarith)]

/-- Claim C3 counterexample: in `implied_volatility_newton_raphson`
(BlackScholesCalculator.py), a vega below the small threshold does not
abandon Newton for bisection (the function has no bisection phase).
At S = K = 1, T = 0, r = 0, market price 5, tolerance −1 the vega derivative
is 0 (below the 1e-10 threshold) at every iterate, yet the solver keeps
nudging σ: one iteration returns 0.49, three iterations return 0.47. -/
theorem newton_guard_counterexample :
    |BSC.vega 1 1 0 0 (1/2) * 100| < 1e-10 ∧
    BSC.implied_volatility_newton_raphson 5 1 1 0 0 .call (1/2) (-1) 1 = 0.49 ∧
    BSC.implied_volatility_newton_raphson 5 1 1 0 0 .call (1/2) (-1) 3 = 0.47 ∧
    (0.49 : ℝ) ≠ 0.47 := by
  refine ⟨by norm_num [BSC.vega], ?_, ?_, by norm_num⟩
  · rw [BSC.implied_volatility_newton_raphson]
    calc BSC.nrLoop 1 1 0 0 5 (-1) .call 1 (1/2)
        = BSC.nrLoop 1 1 0 0 5 (-1) .call 0 (1/2 - 0.01) :=
          nrLoop_nudge_step 0 (1/2) (by norm_num)
      _ = 1/2 - 0.01 := rfl
      _ = 0.49 := by norm_num
  · rw [BSC.implied_volatility_newton_raphson]
    calc BSC.nrLoop 1 1 0 0 5 (-1) .call 3 (1/2)
        = BSC.nrLoop 1 1 0 0 5 (-1) .call 2 (1/2 - 0.01) :=
          nrLoop_nudge_step 2 (1/2) (by norm_num)
      _ = BSC.nrLoop 1 1 0 0 5 (-1) .call 1 (1/2 - 0.01 - 0.01) :=
          nrLoop_nudge_step 1 _ (by norm_num)
      _ = BSC.nrLoop 1 1 0 0 5 (-1) .call 0 (1/2 - 0.01 - 0.01 - 0.01) :=
          nrLoop_nudge_step 0 _ (by norm_num)
      _ = 1/2 - 0.01 - 0.01 - 0.01 := rfl
      _ = 0.47 := by norm_num

/-- Claim C3 amended: in `implied_vol_newton` (black_scholes.py) the Newton
phase is abandoned — falling through to the bisection phase — whenever
|vega| is below the 1e-12 threshold or a Newton update leaves (0, 5],
without dividing by the near-zero vega or continuing from the out-of-range
σ.  In `implied_volatility_newton_raphson` (BlackScholesCalculator.py) there
is no bisection phase: a sub-threshold |vega| produces a ±0.01 nudge
(floored at 0.001) and the Newton loop continues. -/
theorem newton_guard (S K T r target tol σ σ0 : ℝ) (ty : OptionType) (n maxIt : ℕ) :
    (¬ |BS.bs_price S K T r σ ty - target| < tol →
      |(BS.bs_greeks S K T r σ ty).vega| < 1e-12 →
      BS.newtonPhase S K T r target tol ty (n + 1) σ = BS.NewtonOut.fall σ) ∧
    (¬ |BS.bs_price S K T r σ ty - target| < tol →
      1e-12 ≤ (BS.bs_greeks S K T r σ ty).vega →
      (σ - (BS.bs_price S K T r σ ty - target) / (BS.bs_greeks S K T r σ ty).vega ≤ 0 ∨
        5 < σ - (BS.bs_price S K T r σ ty - target) / (BS.bs_greeks S K T r σ ty).vega) →
      BS.newtonPhase S K T r target tol ty (n + 1) σ =
        BS.NewtonOut.fall (σ - (BS.bs_price S K T r σ ty - target) /
          (BS.bs_greeks S K T r σ ty).vega)) ∧
    (0 < target →
      ∀ s, BS.newtonPhase S K T r target tol ty maxIt σ0 = BS.NewtonOut.fall s →
        BS.implied_vol_newton target S K T r ty σ0 tol maxIt =
          BS.bisectionPhase S K T r target tol ty s) ∧
    (¬ |BSC.priceOf S K T r σ ty - target| < tol →
      |BSC.vega S K T r σ * 100| < 1e-10 →
      BSC.nrLoop S K T r target tol ty (n + 1) σ =
        BSC.nrLoop S K T r target tol ty n
          (if (if BSC.priceOf S K T r σ ty - target > 0 then σ + 0.01 else σ - 0.01) ≤ 0
            then 0.001
            else if BSC.priceOf S K T r σ ty - target > 0 then σ + 0.01 else σ - 0.01)) := by
  refine ⟨?_, ?_, ?_, ?_⟩
  · intro hd hv
    simp only [BS.newtonPhase]
    rw [if_neg hd, if_pos (lt_of_abs_lt hv)]
  · intro hd hv hout
    simp only [BS.newtonPhase]
    rw [if_neg hd, if_neg (not_lt.mpr hv), if_pos hout]
  · intro ht s hfall
    rw [BS.implied_vol_newton, if_neg (not_le.mpr ht), hfall]
  · intro hd hv
    simp only [BSC.nrLoop]
    rw [if_neg hd, if_pos hv]

theorem newton_guard_witness :
    (¬ |BS.bs_price 1 1 0 0 1 .call - 5| < -1 →
      |(BS.bs_greeks 1 1 0 0 1 .call).vega| < 1e-12 →
      BS.newtonPhase 1 1 0 0 5 (-1) .call (0 + 1) 1 = BS.NewtonOut.fall 1) ∧
    (¬ |BS.bs_price 1 1 0 0 1 .call - 5| < -1 →
      1e-12 ≤ (BS.bs_greeks 1 1 0 0 1 .call).vega →
      (1 - (BS.bs_price 1 1 0 0 1 .call - 5) / (BS.bs_greeks 1 1 0 0 1 .call).vega ≤ 0 ∨
        5 < 1 - (BS.bs_price 1 1 0 0 1 .call - 5) / (BS.bs_greeks 1 1 0 0 1 .call).vega) →
      BS.newtonPhase 1 1 0 0 5 (-1) .call (0 + 1) 1 =
        BS.NewtonOut.fall (1 - (BS.bs_price 1 1 0 0 1 .call - 5) /
          (BS.bs_greeks 1 1 0 0 1 .call).vega)) ∧
    (0 < (5:ℝ) →
      ∀ s, BS.newtonPhase 1 1 0 0 5 (-1) .call 7 1 = BS.NewtonOut.fall s →
        BS.implied_vol_newton 5 1 1 0 0 .call 1 (-1) 7 =
          BS.bisectionPhase 1 1 0 0 5 (-1) .call s) ∧
    (¬ |BSC.priceOf 1 1 0 0 1 .call - 5| < -1 →
      |BSC.vega 1 1 0 0 1 * 100| < 1e-10 →
      BSC.nrLoop 1 1 0 0 5 (-1) .call (0 + 1) 1 =
        BSC.nrLoop 1 1 0 0 5 (-1) .call 0
          (if (if BSC.priceOf 1 1 0 0 1 .call - 5 > 0 then (1:ℝ) + 0.01 else 1 - 0.01) ≤ 0
            then (0.001:ℝ)
            else if BSC.priceOf 1 1 0 0 1 .call - 5 > 0 then (1:ℝ) + 0.01 else 1 - 0.01)) :=
  newton_guard 1 1 0 0 5 (-1) 1 1 .call 0 7

/-- Every executed Newton loop body counts: with fuel n + 1 at least one body
(one `bs_price`/vega evaluation) runs. -/
lemma newtonIters_pos (S K T r target tol : ℝ) (ty : OptionType) (n : ℕ) (σ : ℝ) :
    1 ≤ BS.newtonIters S K T r target tol ty (n + 1) σ := by
  simp only [BS.newtonIters]
  split_ifs <;> omega

/-- Claim C4 counterexample: a market price of 1/2, strictly below the
intrinsic value max(S − K, 0) = 99 of the call at S = 100, K = 1, is not
rejected by `implied_vol_newton` before the iterative phase: with the default
max_iter = 100 at least one Newton loop body executes for it. -/
theorem iv_rejection_counterexample :
    (0:ℝ) < 1/2 ∧ (1/2 : ℝ) < max (100 - 1) 0 ∧
    1 ≤ BS.implied_vol_newton_iters (1/2) 100 1 1 0 .call (1/5) 1e-8 100 := by
  refine ⟨by norm_num, by norm_num, ?_⟩
  rw [BS.implied_vol_newton_iters, if_neg (by norm_num : ¬ (1/2:ℝ) ≤ 0)]
  exact newtonIters_pos 100 1 1 0 (1/2) 1e-8 .call 99 (1/5)

/-- Claim C4 amended: `implied_vol_newton` rejects only non-positive market
prices before the iterative phase (returning 0 with no Newton loop body
executed); every positive market price — including one below the intrinsic
value or above the theoretical maximum — reaches the Newton iteration, whose
body executes at least once whenever max_iter ≥ 1. -/
theorem iv_no_price_validation (price S K T r σ0 tol : ℝ) (ty : OptionType)
    (maxIt : ℕ) :
    (price ≤ 0 →
      BS.implied_vol_newton_iters price S K T r ty σ0 tol maxIt = 0 ∧
      BS.implied_vol_newton price S K T r ty σ0 tol maxIt = 0) ∧
    (0 < price → 1 ≤ maxIt →
      1 ≤ BS.implied_vol_newton_iters price S K T r ty σ0 tol maxIt) := by
  constructor
  · intro hp
    rw [BS.implied_vol_newton_iters, if_pos hp, BS.implied_vol_newton, if_pos hp]
    exact ⟨rfl, rfl⟩
  · intro hp hit
    rw [BS.implied_vol_newton_iters, if_neg (not_le.mpr hp)]
    obtain ⟨m, rfl⟩ : ∃ m, maxIt = m + 1 :=
      ⟨maxIt - 1, (Nat.succ_pred_eq_of_pos hit).symm⟩
    exact newtonIters_pos S K T r price tol ty m σ0

theorem iv_no_price_validation_witness :
    ((-3:ℝ) ≤ 0 →
      BS.implied_vol_newton_iters (-3) 1 1 1 0 .call (1/5) 1e-8 100 = 0 ∧
      BS.implied_vol_newton (-3) 1 1 1 0 .call (1/5) 1e-8 100 = 0) ∧
    (0 < (-3:ℝ) → 1 ≤ 100 →
      1 ≤ BS.implied_vol_newton_iters (-3) 1 1 1 0 .call (1/5) 1e-8 100) :=
  iv_no_price_validation (-3) 1 1 1 0 (1/5) 1e-8 .call 100

/-- A Newton convergence result is `max σ 0` for a loop iterate σ, and every
loop iterate stays in (0, 5] (the loop breaks on any update outside it), so a
converged value lies in [0, 5]. -/
lemma newtonPhase_conv_range (S K T r target tol : ℝ) (ty : OptionType) :
    ∀ (n : ℕ) (σ v : ℝ), 0 < σ → σ ≤ 5 →
      BS.newtonPhase S K T r target tol ty n σ = BS.NewtonOut.conv v →
      0 ≤ v ∧ v ≤ 5 := by
  intro n
  induction n with
  | zero =>
    intro σ v _ _ h
    simp [BS.newtonPhase] at h
  | succ n ih =>
    intro σ v h1 h2 h
    simp only [BS.newtonPhase] at h
    split at h
    · injection h with hv
      constructor
      · rw [← hv]; exact le_max_right _ _
      · rw [← hv]; exact max_le h2 (by norm_num)
    · split at h
      · simp at h
      · split at h
        · simp at h
        · rename_i hout
          push_neg at hout
          exact ih _ _ hout.1 hout.2 h

/-- The bisection loop never leaves the interval [low, high] ⊆ [1e-6, 5] it
was started on. -/
lemma bisectLoop_range (S K T r target tol : ℝ) (ty : OptionType) :
    ∀ (n : ℕ) (low high pl : ℝ), 1e-6 ≤ low → low ≤ high → high ≤ 5 →
      1e-6 ≤ BS.bisectLoop S K T r target tol ty n low high pl ∧
      BS.bisectLoop S K T r target tol ty n low high pl ≤ 5 := by
  intro n
  induction n with
  | zero =>
    intro low high pl h1 h2 h3
    simp only [BS.bisectLoop]
    constructor <;> linarith
  | succ n ih =>
    intro low high pl h1 h2 h3
    simp only [BS.bisectLoop]
    split_ifs
    · constructor <;> linarith
    · constructor <;> linarith
    · exact ih low (0.5 * (low + high)) pl h1 (by linarith) (by linarith)
    · exact ih (0.5 * (low + high)) high _ (by linarith) (by linarith) h3

/-- The bisection phase returns either the current σ clipped into [1e-6, 5]
(non-bracketable target) or a point of the bisection interval [1e-6, 5]. -/
lemma bisectionPhase_range (S K T r target tol σ : ℝ) (ty : OptionType) :
    1e-6 ≤ BS.bisectionPhase S K T r target tol ty σ ∧
    BS.bisectionPhase S K T r target tol ty σ ≤ 5 := by
  rw [BS.bisectionPhase]
  split_ifs
  · constructor
    · exact le_max_right _ _
    · exact max_le (min_le_right _ _) (by norm_num)
  · exact bisectLoop_range S K T r target tol ty 200 _ _ _ le_rfl (by norm_num) le_rfl

/-- Claim C10: for every market price, S > 0, K > 0, T > 0, r ≥ 0 and every
initial guess in (0, 5], `implied_vol_newton` returns a value in [0, 5]; a
non-positive market price returns 0 immediately; the other return paths (the
Newton result clamped below at 0, the clip of σ into [1e-6, 5] in the
non-bracketable case, and the bisection phase) all land in [0, 5]. -/
theorem implied_vol_range (price S K T r σ0 tol : ℝ) (ty : OptionType) (maxIt : ℕ)
    (hS : 0 < S) (hK : 0 < K) (hT : 0 < T) (hr : 0 ≤ r)
    (h0 : 0 < σ0) (h5 : σ0 ≤ 5) :
    (price ≤ 0 → BS.implied_vol_newton price S K T r ty σ0 tol maxIt = 0) ∧
    0 ≤ BS.implied_vol_newton price S K T r ty σ0 tol maxIt ∧
    BS.implied_vol_newton price S K T r ty σ0 tol maxIt ≤ 5 := by
  constructor
  · intro hp
    rw [BS.implied_vol_newton, if_pos hp]
  · rw [BS.implied_vol_newton]
    split_ifs
    · norm_num
    · cases hN : BS.newtonPhase S K T r price tol ty maxIt σ0 with
      | conv v =>
        simpa using newtonPhase_conv_range S K T r price tol ty maxIt σ0 v h0 h5 hN
      | fall s =>
        have h := bisectionPhase_range S K T r price tol s ty
        constructor
        · exact le_trans (by norm_num) h.1
        · exact h.2

theorem implied_vol_range_witness :
    ((-1:ℝ) ≤ 0 → BS.implied_vol_newton (-1) 1 1 1 0 .call (1/5) 1e-8 100 = 0) ∧
    0 ≤ BS.implied_vol_newton (-1) 1 1 1 0 .call (1/5) 1e-8 100 ∧
    BS.implied_vol_newton (-1) 1 1 1 0 .call (1/5) 1e-8 100 ≤ 5 :=
  implied_vol_range (-1) 1 1 1 0 (1/5) 1e-8 .call 100 (by norm_num) (by norm_num)
    (by norm_num) (by norm_num) (by norm_num) (by norm_num)

lemma sum_map_neg (l : List ℝ) : (l.map (fun x => -x)).sum = -l.sum := by
  induction l with
  | nil => simp
  | cons a t ih => simp [ih]; ring

/-- Claim C8: with antithetic sampling the batch always has exactly n draws
(one unmatched extra draw is appended when n is odd); for an even n the batch
is exactly the n/2 generated draws followed by their negations — n/2 exact
sign-pairs — so the sum, and hence the mean, of the raw draws before the GBM
transform is exactly 0. -/
theorem antithetic_sign_pairs (rng : ℕ → ℝ) (n : ℕ) :
    (MC.draws rng n true).length = n ∧
    (n % 2 = 0 →
      MC.draws rng n true =
        (List.range (n / 2)).map rng ++
          ((List.range (n / 2)).map rng).map (fun x => -x) ∧
      ((List.range (n / 2)).map rng).length = n / 2 ∧
      (MC.draws rng n true).sum = 0 ∧
      MC.mean (MC.draws rng n true) = 0) := by
  constructor
  · rw [MC.draws]
    split_ifs with h h1
    · simp only [List.length_append, List.length_map, List.length_range,
        List.length_cons, List.length_nil]
      omega
    · simp only [List.length_append, List.length_map, List.length_range]
      omega
    · simp
  · intro h
    have h1 : ¬ n % 2 = 1 := by omega
    have hd : MC.draws rng n true =
        (List.range (n / 2)).map rng ++
          ((List.range (n / 2)).map rng).map (fun x => -x) := by
      rw [MC.draws]
      simp [h1]
    have hsum : (MC.draws rng n true).sum = 0 := by
      rw [hd, List.sum_append, sum_map_neg]
      ring
    refine ⟨hd, by simp, hsum, ?_⟩
    rw [MC.mean, hsum, zero_div]

theorem antithetic_sign_pairs_witness :
    (MC.draws (fun i => (i : ℝ) + 1) 4 true).length = 4 ∧
    (4 % 2 = 0 →
      MC.draws (fun i => (i : ℝ) + 1) 4 true =
        (List.range (4 / 2)).map (fun i => (i : ℝ) + 1) ++
          ((List.range (4 / 2)).map (fun i => (i : ℝ) + 1)).map (fun x => -x) ∧
      ((List.range (4 / 2)).map (fun i => (i : ℝ) + 1)).length = 4 / 2 ∧
      (MC.draws (fun i => (i : ℝ) + 1) 4 true).sum = 0 ∧
      MC.mean (MC.draws (fun i => (i : ℝ) + 1) 4 true) = 0) :=
  antithetic_sign_pairs (fun i => (i : ℝ) + 1) 4

lemma sampleVar_nonneg (l : List ℝ) : 0 ≤ MC.sampleVar l := by
  rw [MC.sampleVar]
  match l with
  | [] => simp
  | [a] => simp
  | a :: b :: t =>
    apply div_nonneg
    · apply List.sum_nonneg
      intro x hx
      obtain ⟨y, _, rfl⟩ := List.mem_map.mp hx
      positivity
    · simp only [List.length_cons]
      push_cast
      linarith [Nat.cast_nonneg (α := ℝ) t.length]

lemma zipWith_cv_zero (l : List ℝ) (f g : ℝ → ℝ) (c : ℝ) :
    List.zipWith (fun y x => y - (0:ℝ) * (x - c)) (l.map f) (l.map g) = l.map f := by
  rw [List.zipWith_map, List.zipWith_same]
  simp

/-- Claim C9: the control-variate estimator computes b* = Cov(Y,X)/Var(X)
from the sample covariance of the discounted payoff Y and the control
X = e^(−rT)·S_T, applies the adjustment Y − b*·(X − S0) (reporting its mean
and variance next to the naive ones), and whenever Var(X) = 0 (the only
degenerate case, since the sample variance is never negative) it sets
b* = 0, so the adjusted estimator coincides with the naive one instead of
dividing by zero. -/
theorem control_variate_estimator (S0 K r σ T : ℝ) (n : ℕ) (anti : Bool)
    (rng : ℕ → ℝ) :
    (MC.sampleVar (MC.controlX S0 r σ T n anti rng) = 0 →
      (MC.mc_control_variate_call S0 K r σ T n anti rng).b_opt = 0 ∧
      (MC.mc_control_variate_call S0 K r σ T n anti rng).cv_mean =
        (MC.mc_control_variate_call S0 K r σ T n anti rng).naive_mean ∧
      (MC.mc_control_variate_call S0 K r σ T n anti rng).cv_var =
        (MC.mc_control_variate_call S0 K r σ T n anti rng).naive_var) ∧
    (MC.sampleVar (MC.controlX S0 r σ T n anti rng) ≠ 0 →
      (MC.mc_control_variate_call S0 K r σ T n anti rng).b_opt =
        MC.sampleCov (MC.payoffY S0 K r σ T n anti rng)
            (MC.controlX S0 r σ T n anti rng) /
          MC.sampleVar (MC.controlX S0 r σ T n anti rng)) ∧
    0 ≤ MC.sampleVar (MC.controlX S0 r σ T n anti rng) ∧
    (MC.mc_control_variate_call S0 K r σ T n anti rng).cv_mean =
      MC.mean (List.zipWith
        (fun y x => y -
          (MC.mc_control_variate_call S0 K r σ T n anti rng).b_opt * (x - S0))
        (MC.payoffY S0 K r σ T n anti rng) (MC.controlX S0 r σ T n anti rng)) ∧
    (MC.mc_control_variate_call S0 K r σ T n anti rng).cv_var =
      MC.sampleVar (List.zipWith
        (fun y x => y -
          (MC.mc_control_variate_call S0 K r σ T n anti rng).b_opt * (x - S0))
        (MC.payoffY S0 K r σ T n anti rng) (MC.controlX S0 r σ T n anti rng)) ∧
    (MC.mc_control_variate_call S0 K r σ T n anti rng).naive_mean =
      MC.mean (MC.payoffY S0 K r σ T n anti rng) ∧
    (MC.mc_control_variate_call S0 K r σ T n anti rng).naive_var =
      MC.sampleVar (MC.payoffY S0 K r σ T n anti rng) := by
  refine ⟨?_, ?_, sampleVar_nonneg _, ?_, ?_, ?_, ?_⟩
  · intro h
    have hb : ¬ MC.sampleVar (MC.controlX S0 r σ T n anti rng) > 0 := by
      rw [h]
      exact lt_irrefl 0
    simp only [MC.mc_control_variate_call, if_neg hb]
    refine ⟨by trivial, ?_, ?_⟩
    · rw [MC.payoffY, MC.controlX, zipWith_cv_zero]
    · rw [MC.payoffY, MC.controlX, zipWith_cv_zero]
  · intro h
    have hb : MC.sampleVar (MC.controlX S0 r σ T n anti rng) > 0 :=
      lt_of_le_of_ne (sampleVar_nonneg _) (Ne.symm h)
    simp only [MC.mc_control_variate_call, if_pos hb]
  · simp only [MC.mc_control_variate_call]
  · simp only [MC.mc_control_variate_call]
  · simp only [MC.mc_control_variate_call]
  · simp only [MC.mc_control_variate_call]

theorem control_variate_estimator_witness :
    (MC.sampleVar (MC.controlX 1 0 1 1 2 false (fun i => (i : ℝ))) = 0 →
      (MC.mc_control_variate_call 1 1 0 1 1 2 false (fun i => (i : ℝ))).b_opt = 0 ∧
      (MC.mc_control_variate_call 1 1 0 1 1 2 false (fun i => (i : ℝ))).cv_mean =
        (MC.mc_control_variate_call 1 1 0 1 1 2 false (fun i => (i : ℝ))).naive_mean ∧
      (MC.mc_control_variate_call 1 1 0 1 1 2 false (fun i => (i : ℝ))).cv_var =
        (MC.mc_control_variate_call 1 1 0 1 1 2 false (fun i => (i : ℝ))).naive_var) ∧
    (MC.sampleVar (MC.controlX 1 0 1 1 2 false (fun i => (i : ℝ))) ≠ 0 →
      (MC.mc_control_variate_call 1 1 0 1 1 2 false (fun i => (i : ℝ))).b_opt =
        MC.sampleCov (MC.payoffY 1 1 0 1 1 2 false (fun i => (i : ℝ)))
            (MC.controlX 1 0 1 1 2 false (fun i => (i : ℝ))) /
          MC.sampleVar (MC.controlX 1 0 1 1 2 false (fun i => (i : ℝ)))) ∧
    0 ≤ MC.sampleVar (MC.controlX 1 0 1 1 2 false (fun i => (i : ℝ))) ∧
    (MC.mc_control_variate_call 1 1 0 1 1 2 false (fun i => (i : ℝ))).cv_mean =
      MC.mean (List.zipWith
        (fun y x => y -
          (MC.mc_control_variate_call 1 1 0 1 1 2 false (fun i => (i : ℝ))).b_opt * (x - 1))
        (MC.payoffY 1 1 0 1 1 2 false (fun i => (i : ℝ)))
        (MC.controlX 1 0 1 1 2 false (fun i => (i : ℝ)))) ∧
    (MC.mc_control_variate_call 1 1 0 1 1 2 false (fun i => (i : ℝ))).cv_var =
      MC.sampleVar (List.zipWith
        (fun y x => y -
          (MC.mc_control_variate_call 1 1 0 1 1 2 false (fun i => (i : ℝ))).b_opt * (x - 1))
        (MC.payoffY 1 1 0 1 1 2 false (fun i => (i : ℝ)))
        (MC.controlX 1 0 1 1 2 false (fun i => (i : ℝ)))) ∧
    (MC.mc_control_variate_call 1 1 0 1 1 2 false (fun i => (i : ℝ))).naive_mean =
      MC.mean (MC.payoffY 1 1 0 1 1 2 false (fun i => (i : ℝ))) ∧
    (MC.mc_control_variate_call 1 1 0 1 1 2 false (fun i => (i : ℝ))).naive_var =
      MC.sampleVar (MC.payoffY 1 1 0 1 1 2 false (fun i => (i : ℝ))) :=
  control_variate_estimator 1 1 0 1 1 2 false (fun i => (i : ℝ))
